import Mathlib

/-!
Shallow embedding of the silog handler (package silog): the slog.Handler that
renders log records in a logfmt-style text format, together with its attribute
formatter.  Buffers are modelled as `List Char`; machine strings as `String`.
ANSI color/styling escape sequences produced by lipgloss are not modelled:
a lipgloss style is represented by the text transformation it applies and by
its set string, which is exactly what the plain (uncolored) profile renders.
-/

namespace Silog

/-! ## Modelled fragments of the Go standard library -/

/-- One decimal digit character, as produced by Go's integer formatting. -/
def digitChar (n : Nat) : Char :=
  ['0', '1', '2', '3', '4', '5', '6', '7', '8', '9'].getD (n % 10) '0'

/-- Two-digit zero-padded decimal, as in Go's "04"/"15" layout tokens
(the arguments are always below 60 resp. 24). -/
def pad2 (n : Nat) : List Char :=
  [digitChar (n / 10), digitChar (n % 10)]

/-- Unpadded decimal for numbers below 100, as in Go's "3" layout token. -/
def natChars2 (n : Nat) : List Char :=
  if n < 10 then [digitChar n] else [digitChar (n / 10), digitChar (n % 10)]

/-- A wall-clock timestamp.  Go's `time.Time` normalizes the clock reading, so
the hour is below 24 and the minute below 60; those are the only fields the
layouts used by this repository consume. -/
structure Time where
  hour : Fin 24
  minute : Fin 60
  deriving DecidableEq

/-- Hour on the 12-hour clock (1..12), as rendered by Go's "3" layout token. -/
def hour12Chars (hour : Nat) : List Char :=
  natChars2 (if hour % 12 = 0 then 12 else hour % 12)

/-- Modelled fragment of Go `time.Time.Format`: interprets the layout tokens
"15" (zero-padded 24h hour), "3" (12h hour), "04" (zero-padded minute) and
"PM" (upper-case meridiem); every other layout character is copied verbatim.
This covers `time.Kitchen` ("3:04PM") and the plain numeric layouts used in
the development. -/
def goFormatLayout (t : Time) : List Char → List Char
  | '1' :: '5' :: rest => pad2 t.hour.val ++ goFormatLayout t rest
  | '0' :: '4' :: rest => pad2 t.minute.val ++ goFormatLayout t rest
  | '3' :: rest => hour12Chars t.hour.val ++ goFormatLayout t rest
  | 'P' :: 'M' :: rest =>
      (if 12 ≤ t.hour.val then 'P' else 'A') :: 'M' :: goFormatLayout t rest
  | c :: rest => c :: goFormatLayout t rest
  | [] => []

/-- Go's `time.Kitchen` layout constant. -/
def kitchen : String := "3:04PM"

/-- Go `time.Time.Format` on the modelled layout fragment. -/
def goFormatTime (layout : String) (t : Time) : String :=
  String.mk (goFormatLayout t layout.data)

/-- Go `strings.Lines` / `bytes.Lines`: the sequence of lines of the text,
each line including its trailing newline if it has one; empty input yields no
lines.  `acc` holds the (reversed) characters of the line being scanned. -/
def splitLinesAux (acc : List Char) : List Char → List (List Char)
  | [] => if acc.isEmpty then [] else [acc.reverse]
  | c :: rest =>
      if c = '\n' then (acc.reverse ++ ['\n']) :: splitLinesAux [] rest
      else splitLinesAux (c :: acc) rest

/-- Go `strings.Lines` / `bytes.Lines` over a whole buffer. -/
def splitLines (l : List Char) : List (List Char) :=
  splitLinesAux [] l

/-- Go `bytes.TrimRight` with a cutset given as a predicate. -/
def trimRightWhile (p : Char → Bool) (l : List Char) : List Char :=
  (l.reverse.dropWhile p).reverse

/-- Go `bytes.ContainsAny(l, "\r\n")`: the multi-line detection test. -/
def containsCRLF (l : List Char) : Bool :=
  l.any (fun c => c = '\r' || c = '\n')

/-! ## The slog data model (log/slog fragment used by the handler) -/

/-- A `slog.Value`, restricted to the closed set of kinds the handler
serializes.  The text of a duration (`time.Duration.String()`) and the
shortest round-trip decimal of a float (`strconv.AppendFloat 'g' -1`) are
produced by the Go standard library; the model carries that text in the
constructor.  `.level` is `slog.Any(slog.LevelKey, lvl)` (kind Any wrapping a
`slog.Level`); `.nil` is the zero `slog.Value` (kind Any wrapping nil). -/
inductive Value where
  | bool (b : Bool)
  | duration (text : String)
  | float (text : String)
  | int (i : Int)
  | str (s : String)
  | time (t : Time)
  | uint (n : Nat)
  | group (members : List (String × Value))
  | level (l : Int)
  | nil

/-- A `slog.Attr`: key and value. -/
abbrev Attr := String × Value

/-- Go `attr.Equal(slog.Attr{})`: the empty "skip" sentinel has an empty key and
the zero value (kind Any wrapping nil); values of any other kind never compare
equal to the zero value. -/
def isEmptyAttr : Attr → Bool
  | (k, Value.nil) => k = ""
  | _ => false

/-- Go `slog.Level.String()`: base label plus a signed delta. -/
def levelString (l : Int) : String :=
  let delta : Int → String := fun d =>
    if d = 0 then "" else if 0 < d then "+" ++ toString d else toString d
  if l < 0 then "DEBUG" ++ delta (l - (-4))
  else if l < 4 then "INFO" ++ delta l
  else if l < 8 then "WARN" ++ delta (l - 4)
  else "ERROR" ++ delta (l - 8)

mutual

/-- Go `slog.Value.String()`, used by the handler for replacement values of
unexpected kinds.  For a time value the Go library prints the full timestamp;
the model's `Time` carries only the clock reading, rendered as HH:MM. -/
def valueString : Value → String
  | Value.bool b => if b then "true" else "false"
  | Value.duration text => text
  | Value.float text => text
  | Value.int i => toString i
  | Value.str s => s
  | Value.time t => goFormatTime "15:04" t
  | Value.uint n => toString n
  | Value.group members => "[" ++ groupString members ++ "]"
  | Value.level l => levelString l
  | Value.nil => "<nil>"

/-- Go's rendering of a group value's members inside `Value.String()`. -/
def groupString : List (String × Value) → String
  | [] => ""
  | [(k, v)] => k ++ "=" ++ valueString v
  | (k, v) :: rest => k ++ "=" ++ valueString v ++ " " ++ groupString rest

end

/-! ## Style registry (style.go)

A lipgloss style is modelled by the text transformation its `Render` applies
(identity in the plain profile; colors only add escape sequences, which are
not modelled) together with its set string, which `Render()` with no argument
yields.  Map lookups that miss produce the zero style: empty set string,
identity transformation. -/

structure Style where
  /-- Go `Style.Key.Render`. -/
  key : String → String
  /-- Go `Style.KeyValueDelimiter.Render()` (the set string, default "="). -/
  keyValueDelim : String
  /-- Go `Style.LevelLabels[lvl].String()`; a missing map entry yields the zero
  style whose set string is "". -/
  levelLabels : Int → String
  /-- Go `Style.MultilineValuePrefix.Render()` (the set string, e.g. "| "). -/
  multilineMarker : String
  /-- Go `Style.PrefixDelimiter.Render()` (the set string, default ": "). -/
  prefixDelim : String
  /-- Go `Style.Time.Render`. -/
  time : String → String
  /-- Go `Style.Messages[lvl].Render`; a missing entry is the zero style, whose
  `Render` is the identity. -/
  messages : Int → String → String
  /-- Go `Style.Values[key]` with its presence bit (`hasStyle`). -/
  values : String → Option (String → String)

/-- Go `DefaultStyle()` from style.go, colors elided: Faint/Foreground only add
escape sequences, so every `Render` is the identity on its text. -/
def defaultStyle : Style where
  key := fun s => s
  keyValueDelim := "="
  levelLabels := fun l =>
    if l = -4 then "DBG" else if l = 0 then "INF"
    else if l = 4 then "WRN" else if l = 8 then "ERR" else ""
  multilineMarker := "| "
  prefixDelim := ": "
  time := fun s => s
  messages := fun _ s => s
  values := fun k => if k = "error" then some (fun s => s) else none

/-- Go `PlainStyle()` from style.go. -/
def plainStyle : Style where
  key := fun s => s
  keyValueDelim := "="
  levelLabels := fun l =>
    if l = -4 then "DBG" else if l = 0 then "INF"
    else if l = 4 then "WRN" else if l = 8 then "ERR" else ""
  multilineMarker := "  | "
  prefixDelim := ": "
  time := fun s => s
  messages := fun _ s => s
  values := fun _ => none

/-! ## Handler state -/

/-- A replacement hook: `func(groups []string, attr slog.Attr) slog.Attr`. -/
abbrev ReplaceAttrFn := List String → Attr → Attr

/-- The `io.Writer` destination, identified by a reference id; terminal
detection (`Fd` + isatty) is a capability of the destination. -/
structure Writer where
  id : Nat
  isTerminal : Bool

/-- The silog `Handler` struct.  The shared `out` writer and `outMu` mutex are
references; the model carries their identities, which derivations copy
(so equal ids mean the same shared sink and lock).  The Go field `prefix` is
named `prefixText` here (`prefix` is reserved in Lean). -/
structure Handler where
  /-- Go `lvl.Level()`: the effective minimum leveler's value. -/
  lvl : Int
  style : Style
  /-- Reference identity of the shared `outMu` mutex. -/
  outMuId : Nat
  /-- Reference identity of the shared `out` writer. -/
  outId : Nat
  /-- Go `attrs`: pre-serialized attribute bytes from `WithAttrs`. -/
  attrs : List Char
  /-- Go `groups`: the current group stack. -/
  groups : List String
  /-- Go `lvlOffset`: levels to offset a record's level by. -/
  lvlOffset : Int
  /-- Go `prefix`: the message prefix. -/
  prefixText : String
  /-- Go `timeFormat`: layout for rendering timestamps. -/
  timeFormat : String
  /-- Go `replaceAttr`: the optional attribute replacement hook. -/
  replaceAttr : Option ReplaceAttrFn

/-- Go `HandlerOptions` (all fields optional; `TimeFormat`'s zero value is the
empty string, as in Go). -/
structure HandlerOptions where
  level : Option Int
  style : Option Style
  timeFormat : String
  replaceAttr : Option ReplaceAttrFn

/-- Delimiter constants from the handler. -/
def timeDelim : String := " "

/-- Separator between level and message. -/
def lvlDelim : String := " "

/-- Separator between group names. -/
def groupDelim : String := "."

/-- Separator between message and attributes. -/
def msgAttrDelim : String := "  "

/-- Separator between attributes. -/
def attrDelim : String := " "

/-- Indentation for multi-line attributes. -/
def indentStr : String := "  "

/-- Go `NewHandler(w, opts)`: picks the style with `cmp.Or(opts.Style,
DefaultStyle())`, the time format with `cmp.Or(opts.TimeFormat,
time.Kitchen)`, the level defaulting to `slog.LevelInfo` (0), and constructs a
fresh mutex (`muId` names the fresh reference). -/
def newHandler (w : Writer) (muId : Nat) (opts : HandlerOptions) : Handler where
  lvl := opts.level.getD 0
  style := opts.style.getD defaultStyle
  outMuId := muId
  outId := w.id
  attrs := []
  groups := []
  lvlOffset := 0
  prefixText := ""
  timeFormat := if opts.timeFormat = "" then kitchen else opts.timeFormat
  replaceAttr := opts.replaceAttr

/-- Go `Handler.Enabled`: adds the level offset to the candidate level and
compares with the minimum leveler. -/
def Handler.Enabled (h : Handler) (lvl : Int) : Bool :=
  decide (h.lvl ≤ lvl + h.lvlOffset)

/-! ## Attribute formatter (attrFormatter) -/

/-- The `attrFormatter` accumulator. -/
structure Formatter where
  buf : List Char
  style : Style
  groups : List String
  replaceAttr : Option ReplaceAttrFn

/-- Go `Handler.attrFormatter(buf)`: seeds a formatter with the handler's style,
a copy of its group stack, and its replacement hook. -/
def Handler.attrFormatter (h : Handler) (buf : List Char) : Formatter where
  buf := buf
  style := h.style
  groups := h.groups
  replaceAttr := h.replaceAttr

/-- The delimiter block of `FormatAttr`: looks at the last byte of the buffer;
after a multi-line value (newline) indent, after anything that is not already
a space insert the single-space attribute delimiter. -/
def appendAttrDelim (buf : List Char) : List Char :=
  match buf.getLast? with
  | none => buf
  | some c =>
      if c = '\n' then buf ++ indentStr.data
      else if c ≠ ' ' then buf ++ attrDelim.data
      else buf

/-- The serialization switch of `FormatAttr`: value text per kind.  Group
values never reach the switch (they are splatted earlier); for them, as for
any kind without a dedicated case, Go's default branch appends
`value.String()`. -/
def serializeValue : Value → List Char
  | Value.bool b => (if b then "true" else "false").data
  | Value.duration text => text.data
  | Value.float text => text.data
  | Value.int i => (toString i).data
  | Value.str s => s.data
  | Value.time t => (goFormatTime kitchen t).data
  | Value.uint n => (toString n).data
  | v => (valueString v).data

/-- Go `attrFormatter.formatKey`: every non-empty group of the stack is rendered
and followed by the group delimiter, then the key itself is rendered. -/
def Formatter.formatKey (f : Formatter) (key : String) : Formatter :=
  let buf := f.groups.foldl
    (fun buf g =>
      if g ≠ "" then buf ++ (f.style.key g).data ++ groupDelim.data else buf)
    f.buf
  { f with buf := buf ++ (f.style.key key).data }

/-- The value text of one rendered line or single-line value: styled with the
per-key value style when one is registered, verbatim otherwise. -/
def renderValueText (f : Formatter) (key : String) (text : List Char) : List Char :=
  match f.style.values key with
  | some st => (st (String.mk text)).data
  | none => text

/-- One rendered line of an indented multi-line value: the indentation, the
continuation marker, the line's text trimmed of trailing `"\r\n"` bytes (and
run through the per-key value style when one is registered), and a newline. -/
def multilineValueLine (f : Formatter) (key : String) (line : List Char) : List Char :=
  (indentStr ++ f.style.multilineMarker).data
    ++ renderValueText f key (trimRightWhile (fun c => c = '\r' || c = '\n') line)
    ++ ['\n']

/-- The buffer produced for one non-group attribute (the tail of
`FormatAttr` after the group case): delimiter block, then for a multi-line
value a newline, indentation, the group-prefixed key, the key/value delimiter,
a newline and one `multilineValueLine` per line of the value (the loop appends
one chunk per line, hence the concatenation), plus a forced final newline if
the last byte is not one; for a single-line value the group-prefixed key, the
key/value delimiter and the (possibly styled) value text. -/
def formatPlainAttr (f : Formatter) (key : String) (value : Value) : List Char :=
  let valbs := serializeValue value
  let buf := appendAttrDelim f.buf
  let isMultiline := containsCRLF valbs
  let buf := if isMultiline then buf ++ '\n' :: indentStr.data else buf
  let buf := (Formatter.formatKey { f with buf := buf } key).buf
  let buf := buf ++ f.style.keyValueDelim.data
  if isMultiline then
    let buf := buf ++ ['\n']
    let buf := buf ++ ((splitLines valbs).map (multilineValueLine f key)).flatten
    if buf.getLast? ≠ some '\n' then buf ++ ['\n'] else buf
  else
    buf ++ renderValueText f key valbs

/-- Go `attrFormatter.FormatAttr`.  The Go method resolves the value (LogValuer
resolution is the identity here: the model has no lazy values), applies the
replacement hook, skips the empty sentinel, splats groups recursively
(pushing the key, the member loop as a fold, popping), and otherwise appends
`formatPlainAttr`.  Because the hook is re-applied to every member of a
replaced group value, the Go recursion has no structural bound; `fuel` is an
explicit recursion budget that matches the source on every terminating
execution (one unit is consumed per group-nesting level, so any fuel above
the value's nesting depth is enough when the hook does not grow attributes). -/
def Formatter.FormatAttr : Nat → Formatter → Attr → Formatter
  | 0, f, _ => f
  | fuel + 1, f, attr₀ =>
    let attr := match f.replaceAttr with
      | some replace => replace f.groups attr₀
      | none => attr₀
    if isEmptyAttr attr then f
    else
      match attr with
      | (key, Value.group members) =>
        let f₁ := members.foldl (fun acc a => Formatter.FormatAttr fuel acc a)
          { f with groups := f.groups ++ [key] }
        { f₁ with groups := f₁.groups.dropLast }
      | (key, value) =>
        { f with buf := formatPlainAttr f key value }

/-- A loop of `FormatAttr` calls over a list of attributes (the group-member
loop, the `WithAttrs` loop, and the `rec.Attrs` iteration). -/
def Formatter.formatAttrList (fuel : Nat) (f : Formatter) (attrs : List Attr) :
    Formatter :=
  attrs.foldl (fun acc a => Formatter.FormatAttr fuel acc a) f

/-! ## Handle and the derivation operations -/

/-- A `slog.Record`: optional (possibly zero) time, level, message, and the
ordered attributes added to the record. -/
structure Record where
  time : Option Time
  level : Int
  message : String
  attrs : List Attr

mutual

/-- Group-nesting depth of a value. -/
def valueDepth : Value → Nat
  | Value.group members => attrsDepth members + 1
  | _ => 1

/-- Largest group-nesting depth among a list of attributes. -/
def attrsDepth : List (String × Value) → Nat
  | [] => 0
  | (_, v) :: rest => max (valueDepth v) (attrsDepth rest)

end

/-- Recursion budget for one `FormatAttr` call tree: enough for any group
nesting of the given attributes (only a hook that keeps growing attributes
could exhaust it, and such a hook does not terminate in Go either). -/
def attrFuel (attrs : List Attr) : Nat :=
  attrsDepth attrs + 1

/-- The header text the no-hook path uses for the level label: the style
lookup happens at the record's own level (`rec.Level` in the source), not at
the offset level. -/
def Handler.lvlStringOf (h : Handler) (recLevel lvl : Int) : String :=
  match h.replaceAttr with
  | none => h.style.levelLabels recLevel
  | some replace =>
    let attr := replace [] ("level", Value.level lvl)
    if isEmptyAttr attr then ""
    else
      match attr.2 with
      | Value.level l => h.style.levelLabels l
      | v => valueString v

/-- The rendered time text of a record (before the time style is applied). -/
def Handler.timeStringOf (h : Handler) (time : Option Time) : String :=
  match time with
  | none => ""
  | some t =>
    match h.replaceAttr with
    | none => goFormatTime h.timeFormat t
    | some replace =>
      let timeAttr := replace [] ("time", Value.time t)
      if isEmptyAttr timeAttr then ""
      else
        match timeAttr.2 with
        | Value.time t₂ => goFormatTime h.timeFormat t₂
        | v => valueString v

/-- The bytes emitted for one physical line of the message: time text and
separator (when non-empty), level label and separator (when non-empty), then
the prefix, prefix delimiter and line text — the line's trailing newline is
detached before the message style is applied and re-appended after. -/
def messageLineChunk (h : Handler) (timeString lvlString : String)
    (recLevel : Int) (line : List Char) : List Char :=
  let bs := if timeString = "" then []
    else timeString.data ++ timeDelim.data
  let bs := bs ++ (if lvlString = "" then []
    else lvlString.data ++ lvlDelim.data)
  let msg : List Char := if h.prefixText = "" then []
    else h.prefixText.data ++ h.style.prefixDelim.data
  let trailingNewline := line.getLast? = some '\n'
  let core := if trailingNewline then line.dropLast else line
  let bs := bs ++ (h.style.messages recLevel (String.mk (msg ++ core))).data
  if trailingNewline then bs ++ ['\n'] else bs

/-- Go `Handler.Handle`, modelled as the byte block the single `out.Write` call
receives (the mutex acquisition and the sink's error are outside the model).
The message loop appends one `messageLineChunk` per physical line, hence the
concatenation. -/
def Handler.Handle (h : Handler) (rec : Record) : List Char :=
  let lvl := rec.level + h.lvlOffset
  let lvlString := h.lvlStringOf rec.level lvl
  let timeString := h.timeStringOf rec.time
  let timeString := if timeString = "" then "" else h.style.time timeString
  let bs : List Char :=
    ((splitLines rec.message.data).map
      (messageLineChunk h timeString lvlString rec.level)).flatten
  let bs := bs ++ msgAttrDelim.data
  let bs := if h.attrs.isEmpty then bs else bs ++ h.attrs
  let f := Formatter.formatAttrList (attrFuel rec.attrs)
    (h.attrFormatter bs) rec.attrs
  let bs := f.buf
  trimRightWhile (fun c => c = ' ' || c = '\n') bs ++ ['\n']

/-- Go `Handler.WithAttrs`: serializes the given attributes onto a copy of the
carried-over bytes and stores the result in the copy of the handler. -/
def Handler.WithAttrs (h : Handler) (attrs : List Attr) : Handler :=
  let f := Formatter.formatAttrList (attrFuel attrs) (h.attrFormatter h.attrs) attrs
  { h with attrs := f.buf }

/-- Go `Handler.WithGroup`: pushes the name onto a copy of the group stack. -/
def Handler.WithGroup (h : Handler) (name : String) : Handler :=
  { h with groups := h.groups ++ [name] }

/-- Go `Handler.WithLevel`: replaces the minimum leveler. -/
def Handler.WithLevel (h : Handler) (lvl : Int) : Handler :=
  { h with lvl := lvl }

/-- Go `Handler.SetPrefix` (copy with the prefix replaced, not stacked). -/
def Handler.SetPrefixText (h : Handler) (p : String) : Handler :=
  { h with prefixText := p }

/-- Go `Handler.Prefix` (reads the current prefix). -/
def Handler.PrefixOf (h : Handler) : String :=
  h.prefixText

/-- Go `Handler.WithLevelOffset`: adds to the existing offset (additive). -/
def Handler.WithLevelOffset (h : Handler) (n : Int) : Handler :=
  { h with lvlOffset := h.lvlOffset + n }

/-- Go `Handler.LevelOffset` (reads the current offset). -/
def Handler.LevelOffset (h : Handler) : Int :=
  h.lvlOffset

/-! ## Helper lemmas -/

theorem head?_dropWhile_false (p : Char → Bool) :
    ∀ (l : List Char) (c : Char), (l.dropWhile p).head? = some c → p c = false := by
  intro l
  induction l with
  | nil => intro c hc; simp [List.dropWhile] at hc
  | cons a t ih =>
    intro c hc
    by_cases ha : p a
    · exact ih c (by simpa [List.dropWhile, ha] using hc)
    · simp [List.dropWhile, ha] at hc
      subst hc
      exact Bool.eq_false_iff.mpr ha

theorem trimRightWhile_getLast?_false (p : Char → Bool) (l : List Char) (c : Char)
    (hc : (trimRightWhile p l).getLast? = some c) : p c = false := by
  unfold trimRightWhile at hc
  rw [List.getLast?_reverse] at hc
  exact head?_dropWhile_false p l.reverse c hc

/-! ## C1 -/

theorem foldl_withLevelOffset_fields :
    ∀ (ns : List Int) (h : Handler),
      (ns.foldl Handler.WithLevelOffset h).lvl = h.lvl
      ∧ (ns.foldl Handler.WithLevelOffset h).lvlOffset = h.lvlOffset + ns.sum := by
  intro ns
  induction ns with
  | nil => intro h; simp
  | cons n rest ih =>
    intro h
    have := ih (h.WithLevelOffset n)
    simpa [Handler.WithLevelOffset, add_assoc] using this

/-- C1: for every configured minimum level `L = h.lvl`, every offset
accumulated on the handler through `WithLevelOffset` calls (on top of the
handler's existing offset), and every candidate level `l`, `Enabled l` is
true iff `l` plus the accumulated offset is at least `L`. -/
theorem enabled_iff_offset_level_ge_min (h : Handler) (ns : List Int) (l : Int) :
    (ns.foldl Handler.WithLevelOffset h).Enabled l = true
      ↔ l + (h.lvlOffset + ns.sum) ≥ h.lvl := by
  obtain ⟨hl, ho⟩ := foldl_withLevelOffset_fields ns h
  unfold Handler.Enabled
  rw [hl, ho, decide_eq_true_iff]

/-! ## C5 -/

theorem trim_append_newline_props (bs : List Char) :
    (trimRightWhile (fun c => c = ' ' || c = '\n') bs ++ ['\n']).getLast? = some '\n'
    ∧ (trimRightWhile (fun c => c = ' ' || c = '\n') bs
        ++ ['\n']).dropLast.getLast? ≠ some '\n'
    ∧ (trimRightWhile (fun c => c = ' ' || c = '\n') bs
        ++ ['\n']).dropLast.getLast? ≠ some ' ' := by
  refine ⟨List.getLast?_concat _, ?_, ?_⟩
  · rw [List.dropLast_concat]
    intro hlast
    have := trimRightWhile_getLast?_false _ _ _ hlast
    simp at this
  · rw [List.dropLast_concat]
    intro hlast
    have := trimRightWhile_getLast?_false _ _ _ hlast
    simp at this

/-- C5: the block written by `Handle` ends with exactly one line terminator
(the last byte is a newline, the byte before it is not), and the byte before
that terminator is not a space either. -/
theorem handle_trailing_normalization (h : Handler) (rec : Record) :
    (h.Handle rec).getLast? = some '\n'
    ∧ (h.Handle rec).dropLast.getLast? ≠ some '\n'
    ∧ (h.Handle rec).dropLast.getLast? ≠ some ' ' := by
  unfold Handler.Handle
  exact trim_append_newline_props _

/-! ## C6 -/

/-- C6: an attribute that is the empty sentinel after the optional
replacement hook — whether passed directly (no hook, zero attribute) or
produced by the hook — contributes no bytes: the formatter's buffer is
unchanged. -/
theorem formatAttr_empty_sentinel_no_output (fuel : Nat) (f : Formatter) (a : Attr)
    (hempty : isEmptyAttr (match f.replaceAttr with
      | some replace => replace f.groups a
      | none => a) = true) :
    (Formatter.FormatAttr fuel f a).buf = f.buf := by
  cases fuel with
  | zero => simp [Formatter.FormatAttr]
  | succ fuel =>
    simp only [Formatter.FormatAttr, hempty, if_true]

/-- Witness for C6: the zero attribute passed directly, and a non-zero
attribute that a hook rewrites to the sentinel, both leave the buffer
untouched. -/
theorem formatAttr_empty_sentinel_no_output_witness :
    (Formatter.FormatAttr 1
      ⟨"x".data, plainStyle, [], none⟩ ("", Value.nil)).buf = "x".data
    ∧ (Formatter.FormatAttr 1
      ⟨"x".data, plainStyle, ["g"], some (fun _ _ => ("", Value.nil))⟩
      ("k", Value.str "v")).buf = "x".data :=
  ⟨formatAttr_empty_sentinel_no_output 1 _ _ (by decide),
   formatAttr_empty_sentinel_no_output 1 _ _ (by decide)⟩

/-! ## C9 -/

/-- C9: every derivation operation copies the parent, shares the output
writer and mutex references, and changes exactly the relevant field:
`WithAttrs` only the carried attribute bytes (an empty attribute list leaving
them byte-identical), `WithGroup` only the group stack (one pushed name),
`WithLevel` only the minimum leveler, `SetPrefix` only the prefix (replaced,
not stacked), and `WithLevelOffset` only the offset (additively). -/
theorem derivation_frame_effects (h : Handler) (as : List Attr) (g : String)
    (lvl₂ n : Int) (p : String) :
    ((h.WithAttrs as).outId = h.outId ∧ (h.WithAttrs as).outMuId = h.outMuId
      ∧ (h.WithAttrs as).lvl = h.lvl ∧ (h.WithAttrs as).style = h.style
      ∧ (h.WithAttrs as).groups = h.groups
      ∧ (h.WithAttrs as).lvlOffset = h.lvlOffset
      ∧ (h.WithAttrs as).prefixText = h.prefixText
      ∧ (h.WithAttrs as).timeFormat = h.timeFormat
      ∧ (h.WithAttrs as).replaceAttr = h.replaceAttr
      ∧ (h.WithAttrs []).attrs = h.attrs)
    ∧ ((h.WithGroup g).outId = h.outId ∧ (h.WithGroup g).outMuId = h.outMuId
      ∧ (h.WithGroup g).groups = h.groups ++ [g]
      ∧ (h.WithGroup g).lvl = h.lvl ∧ (h.WithGroup g).style = h.style
      ∧ (h.WithGroup g).attrs = h.attrs
      ∧ (h.WithGroup g).lvlOffset = h.lvlOffset
      ∧ (h.WithGroup g).prefixText = h.prefixText
      ∧ (h.WithGroup g).timeFormat = h.timeFormat
      ∧ (h.WithGroup g).replaceAttr = h.replaceAttr)
    ∧ ((h.WithLevel lvl₂).outId = h.outId
      ∧ (h.WithLevel lvl₂).outMuId = h.outMuId
      ∧ (h.WithLevel lvl₂).lvl = lvl₂ ∧ (h.WithLevel lvl₂).style = h.style
      ∧ (h.WithLevel lvl₂).attrs = h.attrs
      ∧ (h.WithLevel lvl₂).groups = h.groups
      ∧ (h.WithLevel lvl₂).lvlOffset = h.lvlOffset
      ∧ (h.WithLevel lvl₂).prefixText = h.prefixText
      ∧ (h.WithLevel lvl₂).timeFormat = h.timeFormat
      ∧ (h.WithLevel lvl₂).replaceAttr = h.replaceAttr)
    ∧ ((h.SetPrefixText p).outId = h.outId ∧ (h.SetPrefixText p).outMuId = h.outMuId
      ∧ (h.SetPrefixText p).prefixText = p ∧ (h.SetPrefixText p).lvl = h.lvl
      ∧ (h.SetPrefixText p).style = h.style ∧ (h.SetPrefixText p).attrs = h.attrs
      ∧ (h.SetPrefixText p).groups = h.groups
      ∧ (h.SetPrefixText p).lvlOffset = h.lvlOffset
      ∧ (h.SetPrefixText p).timeFormat = h.timeFormat
      ∧ (h.SetPrefixText p).replaceAttr = h.replaceAttr)
    ∧ ((h.WithLevelOffset n).outId = h.outId
      ∧ (h.WithLevelOffset n).outMuId = h.outMuId
      ∧ (h.WithLevelOffset n).lvlOffset = h.lvlOffset + n
      ∧ (h.WithLevelOffset n).lvl = h.lvl
      ∧ (h.WithLevelOffset n).style = h.style
      ∧ (h.WithLevelOffset n).attrs = h.attrs
      ∧ (h.WithLevelOffset n).groups = h.groups
      ∧ (h.WithLevelOffset n).prefixText = h.prefixText
      ∧ (h.WithLevelOffset n).timeFormat = h.timeFormat
      ∧ (h.WithLevelOffset n).replaceAttr = h.replaceAttr) :=
  ⟨⟨rfl, rfl, rfl, rfl, rfl, rfl, rfl, rfl, rfl,
    by simp [Handler.WithAttrs, Formatter.formatAttrList, Handler.attrFormatter]⟩,
   ⟨rfl, rfl, rfl, rfl, rfl, rfl, rfl, rfl, rfl, rfl⟩,
   ⟨rfl, rfl, rfl, rfl, rfl, rfl, rfl, rfl, rfl, rfl⟩,
   ⟨rfl, rfl, rfl, rfl, rfl, rfl, rfl, rfl, rfl, rfl⟩,
   ⟨rfl, rfl, rfl, rfl, rfl, rfl, rfl, rfl, rfl, rfl⟩⟩

/-! ## C10 -/

/-- C10: `Handle` performs no level gating of its own: for a record whose
level is disabled (`Enabled` is false) the emitted block is the same as under
any other minimum level, and the single write still happens (the block ends
with the trailing newline, in particular it is non-empty). -/
theorem handle_no_level_gating (h : Handler) (lvl₂ : Int) (rec : Record)
    (_hdis : h.Enabled rec.level = false) :
    h.Handle rec = (h.WithLevel lvl₂).Handle rec
    ∧ (h.Handle rec).getLast? = some '\n' :=
  ⟨rfl, (handle_trailing_normalization h rec).1⟩

/-- Witness for C10: a plain info-level handler with a record at debug level
(disabled) still emits the full block. -/
theorem handle_no_level_gating_witness :
    (newHandler ⟨0, false⟩ 0 ⟨none, some plainStyle, "", none⟩).Enabled (-4) = false
    ∧ ((newHandler ⟨0, false⟩ 0 ⟨none, some plainStyle, "", none⟩).Handle
        ⟨none, -4, "x", []⟩
      = ((newHandler ⟨0, false⟩ 0 ⟨none, some plainStyle, "", none⟩).WithLevel
          (-100)).Handle ⟨none, -4, "x", []⟩
      ∧ ((newHandler ⟨0, false⟩ 0 ⟨none, some plainStyle, "", none⟩).Handle
          ⟨none, -4, "x", []⟩).getLast? = some '\n') :=
  ⟨by decide,
   handle_no_level_gating (newHandler ⟨0, false⟩ 0 ⟨none, some plainStyle, "", none⟩)
     (-100) ⟨none, -4, "x", []⟩ (by decide)⟩

/-! ## C3 -/

theorem formatAttrList_def (fuel : Nat) (f : Formatter) (as : List Attr) :
    Formatter.formatAttrList fuel f as
      = as.foldl (fun acc a => Formatter.FormatAttr fuel acc a) f := rfl

theorem formatAttr_groups_preserved (fuel : Nat) :
    (∀ (f : Formatter) (a : Attr), (Formatter.FormatAttr fuel f a).groups = f.groups)
    ∧ (∀ (f : Formatter) (as : List Attr),
        (Formatter.formatAttrList fuel f as).groups = f.groups) := by
  induction fuel with
  | zero =>
    have hfa : ∀ (f : Formatter) (a : Attr),
        (Formatter.FormatAttr 0 f a).groups = f.groups := fun _ _ => rfl
    refine ⟨hfa, ?_⟩
    intro f as
    induction as generalizing f with
    | nil => rfl
    | cons a rest ih =>
      rw [formatAttrList_def, List.foldl_cons, ← formatAttrList_def, ih, hfa]
  | succ fuel ih =>
    have hfold : ∀ (as : List Attr) (f : Formatter),
        (as.foldl (fun acc a => Formatter.FormatAttr fuel acc a) f).groups
          = f.groups := by
      intro as
      induction as with
      | nil => intro f; rfl
      | cons a rest ihr =>
        intro f
        rw [List.foldl_cons, ihr, ih.1]
    have hfa : ∀ (f : Formatter) (a : Attr),
        (Formatter.FormatAttr (fuel + 1) f a).groups = f.groups := by
      intro f a
      simp only [Formatter.FormatAttr]
      split
      · rfl
      · split
        · rw [hfold]
          simp
        · rfl
    refine ⟨hfa, ?_⟩
    intro f as
    induction as generalizing f with
    | nil => rfl
    | cons a rest ihl =>
      rw [formatAttrList_def, List.foldl_cons, ← formatAttrList_def, ihl, hfa]

/-- The key text the spec describes: the path segments (already rendered)
joined with the "." group delimiter. -/
def dotJoin : List String → List Char
  | [] => []
  | [p] => p.data
  | p :: rest => p.data ++ '.' :: dotJoin rest

theorem dotJoin_cons_of_ne_nil (p : String) (l : List String) (h : l ≠ []) :
    dotJoin (p :: l) = p.data ++ '.' :: dotJoin l := by
  cases l with
  | nil => exact absurd rfl h
  | cons q t => rfl

theorem formatKey_foldl_eq (st : String → String) :
    ∀ (gs : List String) (buf : List Char) (kr : String),
      (gs.foldl (fun buf g =>
        if g ≠ "" then buf ++ (st g).data ++ groupDelim.data else buf) buf)
        ++ kr.data
      = buf ++ dotJoin ((gs.filter (fun g => g ≠ "")).map st ++ [kr]) := by
  intro gs
  induction gs with
  | nil => intro buf kr; simp [dotJoin]
  | cons g rest ih =>
    intro buf kr
    by_cases hg : g = ""
    · simpa [hg] using ih buf kr
    · have hne : (rest.filter (fun g => g ≠ "")).map st ++ [kr] ≠ [] := by simp
      have hfilter : (g :: rest).filter (fun g => g ≠ "")
          = g :: rest.filter (fun g => g ≠ "") := by
        simp [List.filter_cons, hg]
      have hd := dotJoin_cons_of_ne_nil (st g) _ hne
      rw [List.foldl_cons, if_pos hg, hfilter, List.map_cons, List.cons_append,
        hd, ih]
      simp [groupDelim, List.append_assoc]

/-- Go `formatKey` appends exactly the group path and key, "."-joined, with
empty group names contributing neither a segment nor a delimiter. -/
theorem formatKey_buf_eq (f : Formatter) (key : String) :
    (f.formatKey key).buf
      = f.buf ++ dotJoin ((f.groups.filter (fun g => g ≠ "")).map f.style.key
          ++ [f.style.key key]) := by
  unfold Formatter.formatKey
  exact formatKey_foldl_eq f.style.key f.groups f.buf (f.style.key key)

/-- The group-splat behavior of `FormatAttr`: a group-valued attribute only
pushes its key for the recursive formatting of its members, producing no
`key=value` pair of its own. -/
theorem formatAttr_group_splat (fuel : Nat) (f : Formatter) (key : String)
    (members : List Attr) (hhook : f.replaceAttr = none) :
    Formatter.FormatAttr (fuel + 1) f (key, Value.group members)
      = { Formatter.formatAttrList fuel
            { f with groups := f.groups ++ [key] } members
          with groups := f.groups } := by
  simp only [Formatter.FormatAttr, hhook]
  rw [← formatAttrList_def, (formatAttr_groups_preserved fuel).2]
  simp [isEmptyAttr]

/-- C3: the rendered key of an attribute under group stack `g1,...,gk` is
`g1.g2...gk.key` joined with the "." delimiter, every empty group name
contributing neither a segment nor a delimiter; and a group-valued attribute
never renders a `key=value` pair of its own — it only pushes its key onto the
stack for its members. -/
theorem group_prefixing_and_group_splat :
    (∀ (f : Formatter) (key : String),
      (f.formatKey key).buf
        = f.buf ++ dotJoin ((f.groups.filter (fun g => g ≠ "")).map f.style.key
            ++ [f.style.key key]))
    ∧ (∀ (fuel : Nat) (f : Formatter) (key : String) (members : List Attr),
        f.replaceAttr = none →
        Formatter.FormatAttr (fuel + 1) f (key, Value.group members)
          = { Formatter.formatAttrList fuel
                { f with groups := f.groups ++ [key] } members
              with groups := f.groups }) :=
  ⟨formatKey_buf_eq, fun fuel f key members hhook =>
    formatAttr_group_splat fuel f key members hhook⟩

/-- Witness for C3: a concrete formatter under groups `["a", "", "b"]`
renders key "k" as "a.b.k", and a group attribute splats into its members. -/
theorem group_prefixing_and_group_splat_witness :
    (Formatter.formatKey ⟨[], plainStyle, ["a", "", "b"], none⟩ "k").buf
      = [] ++ dotJoin (((["a", "", "b"].filter (fun g => g ≠ "")).map
          plainStyle.key) ++ [plainStyle.key "k"])
    ∧ Formatter.FormatAttr 2 ⟨[], plainStyle, ["a"], none⟩
        ("g", Value.group [("k1", Value.str "v")])
      = { Formatter.formatAttrList 1
            { Formatter.mk [] plainStyle ["a"] none with groups := ["a"] ++ ["g"] }
            [("k1", Value.str "v")]
          with groups := ["a"] } :=
  ⟨group_prefixing_and_group_splat.1 ⟨[], plainStyle, ["a", "", "b"], none⟩ "k",
   group_prefixing_and_group_splat.2 1 ⟨[], plainStyle, ["a"], none⟩ "g"
     [("k1", Value.str "v")] rfl⟩

/-! ## C2 -/

/-- C2: evaluation of the code at the claim's scenario.  A handler with
minimum level debug (-4), no replacement hook, and a `WithLevelOffset (-4)`
offset handles a record at info level (0): the record is enabled (0 + (-4) ≥
-4), but the label rendered is the label looked up at the record's own level
— "INF" — even though the label at the offset level 0 + (-4) is "DBG" (the
no-hook path of `Handle` reads `rec.Level`, not the offset level). -/
theorem handle_level_label_ignores_offset :
    ((newHandler ⟨0, false⟩ 0 ⟨some (-4), some plainStyle, "", none⟩).WithLevelOffset
        (-4)).Enabled 0 = true
    ∧ ((newHandler ⟨0, false⟩ 0 ⟨some (-4), some plainStyle, "", none⟩).WithLevelOffset
        (-4)).Handle ⟨none, 0, "hi", []⟩ = "INF hi\n".data
    ∧ ((newHandler ⟨0, false⟩ 0 ⟨some (-4), some plainStyle, "",
        none⟩).WithLevelOffset (-4)).style.levelLabels (0 + (-4)) = "DBG"
    ∧ ((newHandler ⟨0, false⟩ 0 ⟨some (-4), some plainStyle, "",
        none⟩).WithLevelOffset (-4)).lvlStringOf 0 (0 + (-4)) = "INF" := by
  refine ⟨by decide, ?_, by decide, by decide⟩
  decide

/-! ## C8 -/

/-- C8 counterexample: with no style configured and a destination that is not
a terminal, `NewHandler` still picks the colorized default theme, not the
plain theme; the two themes differ (already in their multi-line markers), so
the claimed terminal-dependent choice is false at this input. -/
theorem newHandler_style_ignores_terminal_cex :
    (newHandler ⟨0, false⟩ 0 ⟨none, none, "", none⟩).style = defaultStyle
    ∧ ¬((newHandler ⟨0, false⟩ 0 ⟨none, none, "", none⟩).style
        = if (Writer.mk 0 false).isTerminal then defaultStyle else plainStyle) :=
  ⟨rfl, fun hcontra =>
    absurd (congrArg Style.multilineMarker hcontra) (by decide)⟩

/-- C8 amended: when no style is configured, `NewHandler` chooses the
colorized default theme unconditionally; the destination's terminal status is
not consulted. -/
theorem newHandler_default_style_unconditional (w : Writer) (muId : Nat)
    (opts : HandlerOptions) (hs : opts.style = none) :
    (newHandler w muId opts).style = defaultStyle := by
  simp [newHandler, hs]

/-- Witness for the amended C8: both a terminal and a non-terminal
destination yield the default theme. -/
theorem newHandler_default_style_unconditional_witness :
    (newHandler ⟨5, true⟩ 7 ⟨none, none, "", none⟩).style = defaultStyle
    ∧ (newHandler ⟨6, false⟩ 8 ⟨some 4, none, "x", none⟩).style = defaultStyle :=
  ⟨newHandler_default_style_unconditional ⟨5, true⟩ 7 ⟨none, none, "", none⟩ rfl,
   newHandler_default_style_unconditional ⟨6, false⟩ 8 ⟨some 4, none, "x", none⟩ rfl⟩

/-! ## C4 -/

theorem splitLinesAux_length :
    ∀ (s acc : List Char),
      (splitLinesAux acc s).length
        = s.count '\n'
          + (if s.getLast? = some '\n' then 0
             else if s = [] ∧ acc = [] then 0 else 1) := by
  intro s
  induction s with
  | nil =>
    intro acc
    cases acc with
    | nil => simp [splitLinesAux]
    | cons c t => simp [splitLinesAux]
  | cons c rest ih =>
    intro acc
    by_cases hc : c = '\n'
    · subst hc
      rw [show splitLinesAux acc ('\n' :: rest)
          = (acc.reverse ++ ['\n']) :: splitLinesAux [] rest from by
        simp [splitLinesAux]]
      cases rest with
      | nil => simp [splitLinesAux]
      | cons d ds =>
        have := ih []
        simp only [List.length_cons, this, List.count_cons_self,
          List.getLast?_cons_cons]
        split_ifs with h1 h2 <;> simp_all
    · rw [show splitLinesAux acc (c :: rest) = splitLinesAux (c :: acc) rest from by
        simp [splitLinesAux, hc]]
      rw [ih (c :: acc)]
      cases rest with
      | nil => simp [splitLinesAux, List.getLast?, hc, List.count_cons, hc]
      | cons d ds =>
        simp only [List.count_cons, List.getLast?_cons_cons]
        have hcd : (decide (c = '\n') : Bool) = false := by simp [hc]
        split_ifs with h1 h2 <;> simp_all

/-- Number of internal line terminators of a text: newlines that are not the
final byte. -/
def internalNewlineCount (l : List Char) : Nat :=
  l.dropLast.count '\n'

theorem splitLines_length (l : List Char) (hl : l ≠ []) :
    (splitLines l).length = internalNewlineCount l + 1 := by
  unfold splitLines internalNewlineCount
  rw [splitLinesAux_length l []]
  have hlast := List.getLast?_eq_getLast l hl
  have hsplit := List.dropLast_append_getLast hl
  have hcount : l.count '\n'
      = l.dropLast.count '\n' + (if l.getLast hl = '\n' then 1 else 0) := by
    conv_lhs => rw [← hsplit]
    rw [List.count_append]
    by_cases hg : l.getLast hl = '\n' <;> simp [hg, List.count_singleton']
  by_cases hg : l.getLast hl = '\n'
  · rw [hcount]
    simp [hlast, hg, hl]
  · rw [hcount]
    have : ¬(l.getLast? = some '\n') := by
      rw [hlast]
      simp [hg]
    simp [this, hg, hl]

theorem splitLines_ne_nil (l : List Char) (hl : l ≠ []) : splitLines l ≠ [] := by
  intro h
  have := splitLines_length l hl
  rw [h] at this
  simp at this

theorem getLast?_append_flatten_newline :
    ∀ (chunks : List (List Char)) (b : List Char), chunks ≠ [] →
      (∀ ch ∈ chunks, ch.getLast? = some '\n') →
      (b ++ chunks.flatten).getLast? = some '\n' := by
  intro chunks
  induction chunks with
  | nil => intro b h _; exact absurd rfl h
  | cons c rest ih =>
    intro b _ hch
    cases rest with
    | nil =>
      have hc : c.getLast? = some '\n' := hch c (by simp)
      have hcne : c ≠ [] := by intro h; rw [h] at hc; simp at hc
      rw [List.flatten_cons, List.flatten_nil, List.append_nil,
        List.getLast?_append_of_ne_nil _ hcne]
      exact hc
    | cons d ds =>
      rw [List.flatten_cons, ← List.append_assoc]
      exact ih (b ++ c) (by simp) (fun ch h => hch ch (List.mem_cons_of_mem _ h))

theorem multilineValueLine_getLast? (f : Formatter) (key : String)
    (line : List Char) : (multilineValueLine f key line).getLast? = some '\n' := by
  unfold multilineValueLine
  exact List.getLast?_concat _

/-- C4 amended: a multi-line attribute value renders as `key=` followed by
exactly `n + 1` continuation lines, where `n` is the number of internal line
terminators of the value text; each continuation line is the indentation, the
continuation marker, and the corresponding line of the value text with its
terminator and any adjacent trailing carriage returns removed. -/
theorem formatAttr_multiline_value_lines (fuel : Nat) (f : Formatter)
    (key : String) (s : String) (hhook : f.replaceAttr = none)
    (hstyle : f.style.values key = none) (hml : containsCRLF s.data = true) :
    (Formatter.FormatAttr (fuel + 1) f (key, Value.str s)).buf
      = appendAttrDelim f.buf ++ '\n' :: indentStr.data
        ++ dotJoin ((f.groups.filter (fun g => g ≠ "")).map f.style.key
            ++ [f.style.key key])
        ++ f.style.keyValueDelim.data
        ++ '\n' :: ((splitLines s.data).map (fun line =>
              (indentStr ++ f.style.multilineMarker).data
              ++ trimRightWhile (fun c => c = '\r' || c = '\n') line
              ++ ['\n'])).flatten
    ∧ (splitLines s.data).length = internalNewlineCount s.data + 1 := by
  have hsne : s.data ≠ [] := by
    intro h
    rw [h] at hml
    simp [containsCRLF] at hml
  refine ⟨?_, splitLines_length s.data hsne⟩
  have h1 : Formatter.FormatAttr (fuel + 1) f (key, Value.str s)
      = { f with buf := formatPlainAttr f key (Value.str s) } := by
    simp only [Formatter.FormatAttr, hhook]
    rfl
  rw [h1]
  show formatPlainAttr f key (Value.str s) = _
  simp only [formatPlainAttr, serializeValue, hml, eq_self_iff_true, if_true]
  have hlines : ∀ ch ∈ (splitLines s.data).map (multilineValueLine f key),
      ch.getLast? = some '\n' := by
    intro ch hch
    obtain ⟨line, _, rfl⟩ := List.mem_map.mp hch
    exact multilineValueLine_getLast? f key line
  have hmapne : (splitLines s.data).map (multilineValueLine f key) ≠ [] := by
    intro h
    exact splitLines_ne_nil s.data hsne (List.map_eq_nil_iff.mp h)
  rw [if_neg (not_not_intro
    (getLast?_append_flatten_newline _ _ hmapne hlines))]
  rw [formatKey_buf_eq]
  have hmap : (splitLines s.data).map (multilineValueLine f key)
      = (splitLines s.data).map (fun line =>
          (indentStr ++ f.style.multilineMarker).data
          ++ (trimRightWhile (fun c => c = '\r' || c = '\n') line ++ ['\n'])) :=
    List.map_congr_left (fun line _ => by
      simp [multilineValueLine, renderValueText, hstyle, List.append_assoc])
  rw [hmap]
  simp [List.append_assoc]

/-- Witness for the amended C4: a two-line value renders as two continuation
lines. -/
theorem formatAttr_multiline_value_lines_witness :
    (Formatter.FormatAttr 1 ⟨[], plainStyle, [], none⟩
        ("k", Value.str "bar\nbaz")).buf
      = appendAttrDelim [] ++ '\n' :: indentStr.data
        ++ dotJoin ((([] : List String).filter (fun g => g ≠ "")).map
            plainStyle.key ++ [plainStyle.key "k"])
        ++ plainStyle.keyValueDelim.data
        ++ '\n' :: ((splitLines "bar\nbaz".data).map (fun line =>
              (indentStr ++ plainStyle.multilineMarker).data
              ++ trimRightWhile (fun c => c = '\r' || c = '\n') line
              ++ ['\n'])).flatten
    ∧ (splitLines "bar\nbaz".data).length
        = internalNewlineCount "bar\nbaz".data + 1 :=
  formatAttr_multiline_value_lines 0 ⟨[], plainStyle, [], none⟩ "k" "bar\nbaz"
    rfl rfl (by decide)

/-- The continuation-line text the claim describes, reading "terminator" as
the line feed alone: the corresponding line of the value text with its own
terminator removed. -/
def lineSansTerminatorLF (line : List Char) : List Char :=
  if line.getLast? = some '\n' then line.dropLast else line

/-- The continuation-line text the claim describes, reading "terminator" as
carriage return plus line feed when present: the corresponding line of the
value text with its own terminator removed. -/
def lineSansTerminatorCRLF (line : List Char) : List Char :=
  if line.getLast? = some '\n' then
    if line.dropLast.getLast? = some '\r' then line.dropLast.dropLast
    else line.dropLast
  else line

/-- C4 counterexample: for the value "a\r\r\nb" — one internal line
terminator, so two continuation lines — the first rendered line is
`    | a`, not `    | a\r\r` (terminator = LF) and not `    | a\r`
(terminator = CRLF): `FormatAttr` strips all trailing carriage returns of a
line, so the emitted lines do not reproduce the original line text with only
its terminator removed. -/
theorem formatAttr_multiline_cr_counterexample :
    (Formatter.FormatAttr 1 ⟨[], plainStyle, [], none⟩
        ("k", Value.str "a\r\r\nb")).buf
      = ("\n  k=\n    | a\n    | b\n").data
    ∧ internalNewlineCount ("a\r\r\nb").data = 1
    ∧ ¬((Formatter.FormatAttr 1 ⟨[], plainStyle, [], none⟩
          ("k", Value.str "a\r\r\nb")).buf
        = ("\n  k=\n").data
          ++ ((splitLines ("a\r\r\nb").data).map (fun line =>
              ("    | ").data ++ lineSansTerminatorLF line ++ ['\n'])).flatten)
    ∧ ¬((Formatter.FormatAttr 1 ⟨[], plainStyle, [], none⟩
          ("k", Value.str "a\r\r\nb")).buf
        = ("\n  k=\n").data
          ++ ((splitLines ("a\r\r\nb").data).map (fun line =>
              ("    | ").data ++ lineSansTerminatorCRLF line ++ ['\n'])).flatten) := by
  refine ⟨by decide, by decide, by decide, by decide⟩

/-! ## C7 -/

theorem goFormatTime_kitchen_eq (t : Time) :
    (goFormatTime kitchen t).data
      = hour12Chars t.hour.val
        ++ ':' :: (pad2 t.minute.val
          ++ [(if 12 ≤ t.hour.val then 'P' else 'A'), 'M']) := rfl

theorem digitChar_ne_cr_nl (n : Nat) :
    (decide (digitChar n = '\r') || decide (digitChar n = '\n')) = false := by
  have : n % 10 = 0 ∨ n % 10 = 1 ∨ n % 10 = 2 ∨ n % 10 = 3 ∨ n % 10 = 4
      ∨ n % 10 = 5 ∨ n % 10 = 6 ∨ n % 10 = 7 ∨ n % 10 = 8 ∨ n % 10 = 9 := by
    omega
  rcases this with h | h | h | h | h | h | h | h | h | h <;> simp [digitChar, h]

theorem containsCRLF_goFormatTime_kitchen (t : Time) :
    containsCRLF (goFormatTime kitchen t).data = false := by
  rw [containsCRLF, goFormatTime_kitchen_eq]
  simp only [List.any_append, List.any_cons, List.any_nil, hour12Chars,
    natChars2, pad2]
  split_ifs <;> simp [digitChar_ne_cr_nl]

/-- C7 amended: a time-kind attribute value is serialized with the fixed
kitchen clock layout ("3:04PM"); the handler's configured `TimeFormat` (which
applies to the record's own timestamp) plays no part — the formatter renders
`key=` followed by the kitchen-format text whatever `h.timeFormat` is. -/
theorem time_attr_rendered_with_kitchen (h : Handler) (buf : List Char)
    (key : String) (t : Time) (hhook : h.replaceAttr = none)
    (hstyle : h.style.values key = none) :
    (Formatter.FormatAttr 1 (h.attrFormatter buf) (key, Value.time t)).buf
      = appendAttrDelim buf
        ++ dotJoin ((h.groups.filter (fun g => g ≠ "")).map h.style.key
            ++ [h.style.key key])
        ++ h.style.keyValueDelim.data
        ++ (goFormatTime kitchen t).data := by
  have h1 : Formatter.FormatAttr 1 (h.attrFormatter buf) (key, Value.time t)
      = { h.attrFormatter buf with
          buf := formatPlainAttr (h.attrFormatter buf) key (Value.time t) } := by
    simp only [Formatter.FormatAttr, Handler.attrFormatter, hhook]
    rfl
  rw [h1]
  show formatPlainAttr (h.attrFormatter buf) key (Value.time t) = _
  simp only [formatPlainAttr, serializeValue, containsCRLF_goFormatTime_kitchen t,
    Bool.false_eq_true, if_false]
  rw [formatKey_buf_eq]
  simp [Handler.attrFormatter, renderValueText, hstyle, List.append_assoc]

/-- Witness for the amended C7: a handler configured with `TimeFormat`
"15:04" still renders a 9:00 PM attribute timestamp in kitchen format. -/
theorem time_attr_rendered_with_kitchen_witness :
    (Formatter.FormatAttr 1
        ((newHandler ⟨0, false⟩ 0 ⟨none, some plainStyle, "15:04",
            none⟩).attrFormatter [])
        ("k", Value.time ⟨21, 0⟩)).buf
      = appendAttrDelim []
        ++ dotJoin (((newHandler ⟨0, false⟩ 0 ⟨none, some plainStyle, "15:04",
              none⟩).groups.filter (fun g => g ≠ "")).map
            (newHandler ⟨0, false⟩ 0 ⟨none, some plainStyle, "15:04",
              none⟩).style.key
            ++ [(newHandler ⟨0, false⟩ 0 ⟨none, some plainStyle, "15:04",
              none⟩).style.key "k"])
        ++ (newHandler ⟨0, false⟩ 0 ⟨none, some plainStyle, "15:04",
            none⟩).style.keyValueDelim.data
        ++ (goFormatTime kitchen ⟨21, 0⟩).data :=
  time_attr_rendered_with_kitchen
    (newHandler ⟨0, false⟩ 0 ⟨none, some plainStyle, "15:04", none⟩)
    [] "k" ⟨21, 0⟩ rfl rfl

/-- C7 counterexample: with `TimeFormat` configured as "15:04", a time-kind
attribute at 21:00 renders as `k=9:00PM` (kitchen format), not as `k=21:00`
(the configured format), so the claim that attribute timestamps use the
configured time format is false at this input. -/
theorem time_attr_ignores_configured_format_cex :
    (Formatter.FormatAttr 1
        ((newHandler ⟨0, false⟩ 0 ⟨none, some plainStyle, "15:04",
            none⟩).attrFormatter [])
        ("k", Value.time ⟨21, 0⟩)).buf = "k=9:00PM".data
    ∧ goFormatTime (newHandler ⟨0, false⟩ 0 ⟨none, some plainStyle, "15:04",
        none⟩).timeFormat ⟨21, 0⟩ = "21:00"
    ∧ ¬((Formatter.FormatAttr 1
          ((newHandler ⟨0, false⟩ 0 ⟨none, some plainStyle, "15:04",
              none⟩).attrFormatter [])
          ("k", Value.time ⟨21, 0⟩)).buf
        = "k=".data
          ++ (goFormatTime (newHandler ⟨0, false⟩ 0 ⟨none, some plainStyle,
              "15:04", none⟩).timeFormat ⟨21, 0⟩).data) :=
  ⟨by decide, by decide, by decide⟩

end Silog
